import Mathlib

/-!
Verification of the fan-out scholar-search script (`code/scholar_search.py`).

The script issues five fixed Google-Scholar queries concurrently through an
external client, labels the five results, writes the labelled mapping to
`/workspace/data/scholar_research_results.json` as indent-2 JSON, and prints a
one-line per-category summary.

Shallow embedding choices:
* A decoded JSON value (the opaque `SearchResult` the client returns and the
  values `json.dump` serialises) is `JValue`, a mutual inductive whose arrays
  and objects are `JArr` / `JObj`.  JSON numbers are modelled as integers
  (`Int`); the script never produces or inspects floats.
* The external client is a function `QuerySpec → Except Fault JValue`: `.ok`
  models a call that returns a `SearchResult`, `.error` one that raises.
* `asyncio.gather` is modelled by `gatherOrd`, parametrised by the completion
  order `ord : List Nat` (the scheduler's choice): the first fault in
  completion order propagates, otherwise the results are returned
  positionally.
* Python attribute and `dict` operations (`.get`, `len`, truthiness, `str`)
  are modelled by `pyGet`/`pyGetD`/`pyLen`/`truthy`/`pyStr`, faulting with a
  `PyError` exactly where the Python expressions raise.
* `json.dump(..., indent=2)` is `jsonDump` (character-exact, including the
  `ensure_ascii` escaping with surrogate pairs), `json.load`'s value grammar
  restricted to what the dump emits is `jsonParse`.
-/

/-! ## Decoded JSON values -/

mutual
/-- A decoded JSON value: the shape of everything the external client returns
and everything `json.dump` serialises.  Numbers are modelled as `Int`. -/
inductive JValue where
  | null : JValue
  | bool (b : Bool) : JValue
  | num (n : Int) : JValue
  | str (s : String) : JValue
  | arr (xs : JArr) : JValue
  | obj (fs : JObj) : JValue
/-- A JSON array, as its own inductive so that recursion stays structural. -/
inductive JArr where
  | nil : JArr
  | cons (v : JValue) (tl : JArr) : JArr
/-- A JSON object: an ordered field list (Python dicts preserve insertion
order). -/
inductive JObj where
  | nil : JObj
  | cons (k : String) (v : JValue) (tl : JObj) : JObj
end

/-- Number of elements of a JSON array (Python `len` on a list). -/
def JArr.length : JArr → Nat
  | .nil => 0
  | .cons _ tl => 1 + tl.length

/-- Number of fields of a JSON object (Python `len` on a dict). -/
def JObj.length : JObj → Nat
  | .nil => 0
  | .cons _ _ tl => 1 + tl.length

/-- First binding of a key, as Python `dict` lookup (objects built by this
script have distinct keys). -/
def JObj.lookup : JObj → String → Option JValue
  | .nil, _ => none
  | .cons k v tl, key => if k = key then some v else tl.lookup key

/-- Build a `JObj` from an ordered association list. -/
def JObj.ofList : List (String × JValue) → JObj
  | [] => .nil
  | (k, v) :: tl => .cons k v (JObj.ofList tl)

/-! ## Python semantics of the expressions the summary loop uses -/

/-- The Python exceptions the summary loop can raise: `AttributeError` from
calling `.get` on a non-dict, `TypeError` from `len` of a non-sized value. -/
inductive PyError where
  | attributeError : PyError
  | typeError : PyError
deriving DecidableEq

/-- Python truthiness of a decoded JSON value (`if results.get('success'):`):
`None` and `False` are falsy, numbers are truthy iff nonzero, strings,
lists and dicts iff nonempty. -/
def truthy : JValue → Bool
  | .null => false
  | .bool b => b
  | .num n => n != 0
  | .str s => s != ""
  | .arr .nil => false
  | .arr (.cons _ _) => true
  | .obj .nil => false
  | .obj (.cons _ _ _) => true

/-- Python `x.get(key)` with no default: on a dict it returns the value or
`None` when the key is absent; on anything else (including `None`) the
attribute access raises `AttributeError`. -/
def pyGet (v : JValue) (key : String) : Except PyError JValue :=
  match v with
  | .obj fs => .ok ((fs.lookup key).getD .null)
  | _ => .error .attributeError

/-- Python `x.get(key, dflt)`: the default replaces the value only when the
key itself is missing; a key bound to `None` yields `None`.  Non-dicts raise
`AttributeError`. -/
def pyGetD (v : JValue) (key : String) (dflt : JValue) : Except PyError JValue :=
  match v with
  | .obj fs => .ok ((fs.lookup key).getD dflt)
  | _ => .error .attributeError

/-- Python `len` of a decoded JSON value: defined for strings, lists, dicts;
`TypeError` otherwise. -/
def pyLen : JValue → Except PyError Nat
  | .str s => .ok s.length
  | .arr xs => .ok xs.length
  | .obj fs => .ok fs.length
  | _ => .error .typeError

mutual
/-- Python `repr` of a decoded JSON value, used by `str` on containers.
The quoting of strings that themselves contain quotes or backslashes is
approximated (no claim inspects that case). -/
def pyRepr : JValue → String
  | .null => "None"
  | .bool true => "True"
  | .bool false => "False"
  | .num n => toString n
  | .str s => "'" ++ s ++ "'"
  | .arr xs => "[" ++ pyReprArr xs ++ "]"
  | .obj fs => "\x7b" ++ pyReprObj fs ++ "\x7d"
/-- Comma-separated reprs of array elements. -/
def pyReprArr : JArr → String
  | .nil => ""
  | .cons v .nil => pyRepr v
  | .cons v tl => pyRepr v ++ ", " ++ pyReprArr tl
/-- Comma-separated `'key': value` reprs of object fields. -/
def pyReprObj : JObj → String
  | .nil => ""
  | .cons k v .nil => "'" ++ k ++ "': " ++ pyRepr v
  | .cons k v tl => "'" ++ k ++ "': " ++ pyRepr v ++ ", " ++ pyReprObj tl
end

/-- Python `str` of a decoded JSON value, as an f-string interpolation
applies it: a string formats as itself, everything else as its repr. -/
def pyStr (v : JValue) : String :=
  match v with
  | .str s => s
  | _ => pyRepr v

/-! ## The summary loop (`__main__`, lines 76-81) -/

/-- The success line `f"{category}: Found {paper_count} papers"`. -/
def foundLine (category : String) (n : Nat) : String :=
  category ++ ": Found " ++ toString n ++ " papers"

/-- The failure line
`f"{category}: Search failed - {results.get('error', 'Unknown error')}"`. -/
def failLine (category : String) (err : JValue) : String :=
  category ++ ": Search failed - " ++ pyStr err

/-- One iteration of the summary loop:
```
if results.get('success'):
    paper_count = len(results.get('data', {}).get('papers', []))
    print(f"{category}: Found {paper_count} papers")
else:
    print(f"{category}: Search failed - {results.get('error', 'Unknown error')}")
```
Each Python subexpression that can raise is sequenced explicitly. -/
def summaryLine (category : String) (results : JValue) : Except PyError String :=
  match pyGet results "success" with
  | .error e => .error e
  | .ok sv =>
    if truthy sv then
      match pyGetD results "data" (.obj .nil) with
      | .error e => .error e
      | .ok data =>
        match pyGetD data "papers" (.arr .nil) with
        | .error e => .error e
        | .ok papers =>
          match pyLen papers with
          | .error e => .error e
          | .ok n => .ok (foundLine category n)
    else
      match pyGetD results "error" (.str "Unknown error") with
      | .error e => .error e
      | .ok err => .ok (failLine category err)

/-- The whole `for category, results in scholar_results.items():` loop: the
lines printed, and whether the loop ran to completion (`false` when an
iteration raised; the lines printed before the raise are kept). -/
def printLoop : List (String × JValue) → List String × Bool
  | [] => ([], true)
  | (category, results) :: tl =>
    match summaryLine category results with
    | .ok line =>
      let rest := printLoop tl
      (line :: rest.1, rest.2)
    | .error _ => ([], false)

/-! ## The fan-out query runner (`search_scholar_papers`, lines 5-52) -/

/-- One `client.scholar.search_scholar` call's keyword arguments. -/
structure QuerySpec where
  query : String
  num_results : Nat
  start_year : String
  end_year : String
deriving DecidableEq

/-- A raised Python exception from an underlying client call. -/
structure Fault where
  msg : String
deriving DecidableEq

/-- The external client: an async `search_scholar` operation that either
returns a `SearchResult` (`.ok`) or raises (`.error`). -/
abbrev SearchClient := QuerySpec → Except Fault JValue

/-- Query 1 (line 11): bound to label `content_curation`. -/
def querySpec0 : QuerySpec :=
  { query := "automated content curation AI newsletter systems"
    num_results := 20, start_year := "2020", end_year := "2025" }

/-- Query 2 (line 17): bound to label `recommendation_systems`. -/
def querySpec1 : QuerySpec :=
  { query := "personalized recommendation systems content filtering"
    num_results := 20, start_year := "2020", end_year := "2025" }

/-- Query 3 (line 23): bound to label `automated_reporting`. -/
def querySpec2 : QuerySpec :=
  { query := "automated report generation machine learning"
    num_results := 20, start_year := "2020", end_year := "2025" }

/-- Query 4 (line 29): bound to label `financial_visualization`. -/
def querySpec3 : QuerySpec :=
  { query := "financial data visualization real-time analytics"
    num_results := 20, start_year := "2020", end_year := "2025" }

/-- Query 5 (line 35): bound to label `content_aggregation`. -/
def querySpec4 : QuerySpec :=
  { query := "content aggregation news summarization NLP"
    num_results := 20, start_year := "2020", end_year := "2025" }

/-- The `search_tasks` list (lines 10-41), in submission order. -/
def scholarQueries : List QuerySpec :=
  [querySpec0, querySpec1, querySpec2, querySpec3, querySpec4]

/-- The five fixed category labels (the keys of the result dict built on
lines 46-52), in insertion order: the Nth label is bound to the Nth
query's result. -/
def categoryLabels : List String :=
  ["content_curation", "recommendation_systems", "automated_reporting",
   "financial_visualization", "content_aggregation"]

/-- The five coroutines handed to `asyncio.gather`: each is the client's
response (or raise) for its query. -/
def searchTasks (client : SearchClient) : List (Except Fault JValue) :=
  scholarQueries.map client

/-- The task at slot `i` (out-of-range slots never arise for valid
schedules; they default to a completed no-op). -/
def taskAt (tasks : List (Except Fault JValue)) (i : Nat) : Except Fault JValue :=
  tasks.getD i (.ok .null)

/-- The first fault in completion order `ord`: the exception that
`asyncio.gather` propagates. -/
def firstFault (tasks : List (Except Fault JValue)) (ord : List Nat) : Option Fault :=
  ord.findSome? fun i =>
    match taskAt tasks i with
    | .error f => some f
    | .ok _ => none

/-- Positional collection of the results when no task faulted. -/
def collectOk : List (Except Fault JValue) → Option (List JValue)
  | [] => some []
  | .ok v :: tl =>
    match collectOk tl with
    | some vs => some (v :: vs)
    | none => none
  | .error _ :: _ => none

/-- Model of `await asyncio.gather(*search_tasks)` (line 44) under completion order
`ord`: if any task that completes raises, that first exception propagates;
otherwise the results come back in submission order, independent of `ord`.
(The last branch is unreachable when `ord` schedules every task.) -/
def gatherOrd (tasks : List (Except Fault JValue)) (ord : List Nat) :
    Except Fault (List JValue) :=
  match firstFault tasks ord with
  | some f => .error f
  | none =>
    match collectOk tasks with
    | some vs => .ok vs
    | none => .error { msg := "task faulted outside the modelled completion order" }

/-- Model of `search_scholar_papers` (lines 5-52): gather the five searches, then
build the labelled result dict (lines 46-52) positionally. -/
def search_scholar_papers (client : SearchClient) (ord : List Nat) :
    Except Fault (List (String × JValue)) :=
  match gatherOrd (searchTasks client) ord with
  | .error f => .error f
  | .ok results =>
    .ok [("content_curation", results.getD 0 .null),
         ("recommendation_systems", results.getD 1 .null),
         ("automated_reporting", results.getD 2 .null),
         ("financial_visualization", results.getD 3 .null),
         ("content_aggregation", results.getD 4 .null)]

/-! ## The execution adapter (`run_async_with_thread_pool`, lines 54-63) -/

/-- Observable execution facts of one `run_async_with_thread_pool` call:
whether the `ThreadPoolExecutor` was created and how many tasks were ever
submitted to it, which thread hosted `loop.run_until_complete`, and the
event-loop lifecycle. -/
structure ExecTrace where
  poolCreated : Bool
  poolTasksSubmitted : Nat
  loopHostThread : Nat
  loopCreated : Bool
  loopClosed : Bool
deriving DecidableEq

/-- Model of `run_async_with_thread_pool` (lines 54-63), traced.  The source:
```
with concurrent.futures.ThreadPoolExecutor() as executor:
    loop = asyncio.new_event_loop()
    asyncio.set_event_loop(loop)
    try:
        results = loop.run_until_complete(search_scholar_papers())
        return results
    finally:
        loop.close()
```
The pool is created but `executor` is never referenced again, so no task is
ever submitted to it; `loop.run_until_complete` executes on the thread that
called the function (`callerThread`).  The `try/finally` closes the loop on
both exit paths, which the two match arms encode. -/
def run_async_with_thread_pool (callerThread : Nat) (client : SearchClient)
    (ord : List Nat) : Except Fault (List (String × JValue)) × ExecTrace :=
  match search_scholar_papers client ord with
  | .ok results =>
    (.ok results,
     { poolCreated := true, poolTasksSubmitted := 0, loopHostThread := callerThread
       loopCreated := true, loopClosed := true })
  | .error f =>
    (.error f,
     { poolCreated := true, poolTasksSubmitted := 0, loopHostThread := callerThread
       loopCreated := true, loopClosed := true })

/-! ## JSON serialisation (`json.dump(scholar_results, f, indent=2)`, line 73)

The printer reproduces Python's `json.dump` with `indent=2` and the default
`ensure_ascii=True`, `separators=(',', ': ')` character for character. -/

/-- The double-quote character. -/
def quoteChar : Char := '\x22'

/-- The backslash character. -/
def backslashChar : Char := '\x5c'

/-- The opening-brace character. -/
def lbraceChar : Char := '\x7b'

/-- The closing-brace character. -/
def rbraceChar : Char := '\x7d'

/-- The decimal digit characters. -/
def digitChar : Nat → Char
  | 0 => '0'
  | 1 => '1'
  | 2 => '2'
  | 3 => '3'
  | 4 => '4'
  | 5 => '5'
  | 6 => '6'
  | 7 => '7'
  | 8 => '8'
  | 9 => '9'
  | _ => '0'

/-- The lowercase hexadecimal digit characters (Python's `'\u%04x'`). -/
def hexChar : Nat → Char
  | 0 => '0'
  | 1 => '1'
  | 2 => '2'
  | 3 => '3'
  | 4 => '4'
  | 5 => '5'
  | 6 => '6'
  | 7 => '7'
  | 8 => '8'
  | 9 => '9'
  | 10 => 'a'
  | 11 => 'b'
  | 12 => 'c'
  | 13 => 'd'
  | 14 => 'e'
  | 15 => 'f'
  | _ => '0'

/-- Four lowercase hex digits of a code unit below `0x10000`. -/
def hex4 (n : Nat) : List Char :=
  [hexChar (n / 4096), hexChar (n / 256 % 16), hexChar (n / 16 % 16), hexChar (n % 16)]

/-- Decimal digits of `n` (most significant first, empty for `0`); the fuel
bounds the recursion and any `fuel ≥ n` is enough. -/
def natDigitsAux : Nat → Nat → List Char
  | 0, _ => []
  | fuel + 1, n =>
    if n = 0 then []
    else natDigitsAux fuel (n / 10) ++ [digitChar (n % 10)]

/-- Decimal notation of a natural number, as Python prints it. -/
def natPrint (n : Nat) : List Char :=
  if n = 0 then ['0'] else natDigitsAux n n

/-- Decimal notation of an integer, as Python `str` prints it. -/
def intPrint : Int → List Char
  | .ofNat n => natPrint n
  | .negSucc n => '-' :: natPrint (n + 1)

/-- Python's `ensure_ascii` JSON escape of one character: `"` and `\` and the
five short control escapes, `\uXXXX` for other controls and all non-ASCII
code points, with astral characters as a UTF-16 surrogate pair. -/
def escChar (c : Char) : List Char :=
  let n := c.toNat
  if n = 34 then [backslashChar, quoteChar]
  else if n = 92 then [backslashChar, backslashChar]
  else if n = 8 then [backslashChar, 'b']
  else if n = 9 then [backslashChar, 't']
  else if n = 10 then [backslashChar, 'n']
  else if n = 12 then [backslashChar, 'f']
  else if n = 13 then [backslashChar, 'r']
  else if n < 32 then backslashChar :: 'u' :: hex4 n
  else if n ≤ 126 then [c]
  else if n < 65536 then backslashChar :: 'u' :: hex4 n
  else
    backslashChar :: 'u' :: hex4 (55296 + (n - 65536) / 1024) ++
      backslashChar :: 'u' :: hex4 (56320 + (n - 65536) % 1024)

/-- JSON escape of a character list. -/
def escList : List Char → List Char
  | [] => []
  | c :: tl => escChar c ++ escList tl

/-- A JSON string literal: quote, escaped contents, quote. -/
def dumpStr (s : String) : List Char :=
  quoteChar :: (escList s.data ++ [quoteChar])

/-- The indentation in front of an item at nesting depth `ind`
(`indent=2`). -/
def indentChars (ind : Nat) : List Char :=
  List.replicate (2 * ind) ' '

mutual
/-- Serialise a value at nesting depth `ind`, exactly as `json.dump` with
`indent=2` lays it out: empty containers inline, nonempty ones with one item
per line, items separated by `",\n"`, keys followed by `": "`. -/
def dumpV (ind : Nat) : JValue → List Char
  | .null => ("null" : String).data
  | .bool true => ("true" : String).data
  | .bool false => ("false" : String).data
  | .num i => intPrint i
  | .str s => dumpStr s
  | .arr .nil => ['[', ']']
  | .arr (.cons v tl) =>
    '[' :: '\n' :: (indentChars (ind + 1) ++ dumpV (ind + 1) v ++
      dumpArrRest (ind + 1) tl ++ '\n' :: (indentChars ind ++ [']']))
  | .obj .nil => [lbraceChar, rbraceChar]
  | .obj (.cons k v tl) =>
    lbraceChar :: '\n' :: (indentChars (ind + 1) ++ dumpStr k ++
      ':' :: ' ' :: (dumpV (ind + 1) v ++ dumpObjRest (ind + 1) tl ++
        '\n' :: (indentChars ind ++ [rbraceChar])))
/-- The remaining array items, each preceded by `",\n"` and its
indentation. -/
def dumpArrRest (ind : Nat) : JArr → List Char
  | .nil => []
  | .cons v tl =>
    ',' :: '\n' :: (indentChars ind ++ dumpV ind v ++ dumpArrRest ind tl)
/-- The remaining object fields, each preceded by `",\n"`, its indentation,
the quoted key and `": "`. -/
def dumpObjRest (ind : Nat) : JObj → List Char
  | .nil => []
  | .cons k v tl =>
    ',' :: '\n' :: (indentChars ind ++ dumpStr k ++
      ':' :: ' ' :: (dumpV ind v ++ dumpObjRest ind tl))
end

/-- Model of `json.dump(v, f, indent=2)`: the exact file contents written. -/
def jsonDump (v : JValue) : String :=
  String.mk (dumpV 0 v)

/-- The file contents for a labelled result bundle (the dict built on
lines 46-52, serialised on line 73). -/
def jsonDumpBundle (bundle : List (String × JValue)) : String :=
  jsonDump (.obj (JObj.ofList bundle))

/-! ## JSON parsing (`json.load` on the dump's output)

A recursive-descent reader of the JSON value grammar restricted to what the
dump emits (integers as the only numbers; surrogate escapes must be paired,
since a Lean `Char` cannot hold a lone surrogate).  Recursion is bounded by
explicit fuel; `jsonParse` supplies enough for its input. -/

/-- JSON whitespace. -/
def isWs (c : Char) : Bool :=
  c == ' ' || c == '\t' || c == '\n' || c == '\r'

/-- Drop leading JSON whitespace. -/
def skipWs : List Char → List Char
  | [] => []
  | c :: tl => if isWs c then skipWs tl else c :: tl

/-- Decimal digit test. -/
def isDigitCh (c : Char) : Bool :=
  decide (48 ≤ c.toNat ∧ c.toNat ≤ 57)

/-- Value of a decimal digit character. -/
def digitVal (c : Char) : Nat :=
  c.toNat - 48

/-- Read a run of decimal digits left to right into an accumulator. -/
def parseNatAcc : List Char → Nat → Nat × List Char
  | [], acc => (acc, [])
  | c :: tl, acc =>
    if isDigitCh c then parseNatAcc tl (acc * 10 + digitVal c)
    else (acc, c :: tl)

/-- Value of a hexadecimal digit character, either case. -/
def hexVal (c : Char) : Option Nat :=
  if 48 ≤ c.toNat ∧ c.toNat ≤ 57 then some (c.toNat - 48)
  else if 97 ≤ c.toNat ∧ c.toNat ≤ 102 then some (c.toNat - 87)
  else if 65 ≤ c.toNat ∧ c.toNat ≤ 70 then some (c.toNat - 55)
  else none

/-- Read exactly four hex digits. -/
def parseHex4 : List Char → Option (Nat × List Char)
  | a :: b :: c :: d :: rest =>
    match hexVal a, hexVal b, hexVal c, hexVal d with
    | some x, some y, some z, some w => some (4096 * x + 256 * y + 16 * z + w, rest)
    | _, _, _, _ => none
  | _ => none

/-- Read one string escape (the characters after a backslash), combining a
high surrogate escape with its low partner. -/
def parseEscape : List Char → Option (Char × List Char)
  | [] => none
  | e :: r =>
    if e = quoteChar then some (quoteChar, r)
    else if e = backslashChar then some (backslashChar, r)
    else if e = '/' then some ('/', r)
    else if e = 'b' then some (Char.ofNat 8, r)
    else if e = 'f' then some (Char.ofNat 12, r)
    else if e = 'n' then some (Char.ofNat 10, r)
    else if e = 'r' then some (Char.ofNat 13, r)
    else if e = 't' then some (Char.ofNat 9, r)
    else if e = 'u' then
      match parseHex4 r with
      | none => none
      | some (u, r2) =>
        if 55296 ≤ u ∧ u ≤ 56319 then
          match r2 with
          | b2 :: u2 :: r3 =>
            if b2 = backslashChar ∧ u2 = 'u' then
              match parseHex4 r3 with
              | none => none
              | some (w, r4) =>
                if 56320 ≤ w ∧ w ≤ 57343 then
                  some (Char.ofNat (65536 + 1024 * (u - 55296) + (w - 56320)), r4)
                else none
            else none
          | _ => none
        else if 56320 ≤ u ∧ u ≤ 57343 then none
        else some (Char.ofNat u, r2)
    else none

/-- Read the body of a string literal (after the opening quote) up to the
closing quote; one unit of fuel per character read. -/
def parseStringBody : Nat → List Char → List Char → Option (String × List Char)
  | 0, _, _ => none
  | _ + 1, _, [] => none
  | fuel + 1, acc, c :: tl =>
    if c = quoteChar then some (String.mk acc.reverse, tl)
    else if c = backslashChar then
      match parseEscape tl with
      | some (ch, tl2) => parseStringBody fuel (ch :: acc) tl2
      | none => none
    else parseStringBody fuel (c :: acc) tl

/-- Wrap a parsed string into a value. -/
def strTail : Option (String × List Char) → Option (JValue × List Char)
  | some (s, r) => some (.str s, r)
  | none => none

/-- The characters after the `n` of a `null` literal. -/
def nullTail : List Char → Option (JValue × List Char)
  | 'u' :: 'l' :: 'l' :: r => some (.null, r)
  | _ => none

/-- The characters after the `t` of a `true` literal. -/
def trueTail : List Char → Option (JValue × List Char)
  | 'r' :: 'u' :: 'e' :: r => some (.bool true, r)
  | _ => none

/-- The characters after the `f` of a `false` literal. -/
def falseTail : List Char → Option (JValue × List Char)
  | 'a' :: 'l' :: 's' :: 'e' :: r => some (.bool false, r)
  | _ => none

/-- A read digit run as a number value. -/
def numTail (p : Nat × List Char) : Option (JValue × List Char) :=
  some (.num (p.1 : Int), p.2)

/-- A read digit run after a minus sign as a negated number value. -/
def negNumTail2 (p : Nat × List Char) : Option (JValue × List Char) :=
  some (.num (-(p.1 : Int)), p.2)

/-- The characters after a minus sign: at least one digit must follow. -/
def negNumTail : List Char → Option (JValue × List Char)
  | [] => none
  | d :: r =>
    if isDigitCh d then negNumTail2 (parseNatAcc r (digitVal d)) else none

/-- Wrap parsed object fields into an object value. -/
def objWrap : Option (JObj × List Char) → Option (JValue × List Char)
  | some (fs, r) => some (.obj fs, r)
  | none => none

/-- Wrap parsed array items into an array value. -/
def arrWrap : Option (JArr × List Char) → Option (JValue × List Char)
  | some (xs, r) => some (.arr xs, r)
  | none => none

/-- Prepend an item to parsed trailing array items. -/
def consWrapA (v : JValue) : Option (JArr × List Char) → Option (JArr × List Char)
  | some (tl, r) => some (.cons v tl, r)
  | none => none

/-- Prepend a field to parsed trailing object fields. -/
def consWrapO (k : String) (v : JValue) : Option (JObj × List Char) → Option (JObj × List Char)
  | some (tl, r) => some (.cons k v tl, r)
  | none => none

mutual
/-- Read one JSON value, skipping leading whitespace.  Every recursive step
spends one unit of fuel; `jsonParse` supplies enough for its input. -/
def parseValue : Nat → List Char → Option (JValue × List Char)
  | 0, _ => none
  | fuel + 1, cs => parseValueCore fuel (skipWs cs)
/-- Dispatch on the first significant character of a value. -/
def parseValueCore : Nat → List Char → Option (JValue × List Char)
  | 0, _ => none
  | _ + 1, [] => none
  | fuel + 1, c :: cs1 =>
    if c = lbraceChar then parseObjStart fuel (skipWs cs1)
    else if c = '[' then parseArrStart fuel (skipWs cs1)
    else if c = quoteChar then strTail (parseStringBody fuel [] cs1)
    else if c = 'n' then nullTail cs1
    else if c = 't' then trueTail cs1
    else if c = 'f' then falseTail cs1
    else if c = '-' then negNumTail cs1
    else if isDigitCh c then numTail (parseNatAcc cs1 (digitVal c))
    else none
/-- After `{` and whitespace: an empty object or its first field. -/
def parseObjStart : Nat → List Char → Option (JValue × List Char)
  | 0, _ => none
  | _ + 1, [] => none
  | fuel + 1, c2 :: cs2 =>
    if c2 = rbraceChar then some (.obj .nil, cs2)
    else objWrap (parseObjItems fuel (c2 :: cs2))
/-- After `[` and whitespace: an empty array or its first item. -/
def parseArrStart : Nat → List Char → Option (JValue × List Char)
  | 0, _ => none
  | _ + 1, [] => none
  | fuel + 1, c2 :: cs2 =>
    if c2 = ']' then some (.arr .nil, cs2)
    else arrWrap (parseArrItems fuel (c2 :: cs2))
/-- Read the items of a nonempty array (position: at the first item) and
the closing bracket. -/
def parseArrItems : Nat → List Char → Option (JArr × List Char)
  | 0, _ => none
  | fuel + 1, cs => arrStep fuel (parseValue fuel cs)
/-- After one array item has been read. -/
def arrStep : Nat → Option (JValue × List Char) → Option (JArr × List Char)
  | 0, _ => none
  | _ + 1, none => none
  | fuel + 1, some (v, r) => arrSep fuel v (skipWs r)
/-- At the separator after an array item: `,` continues, `]` closes. -/
def arrSep : Nat → JValue → List Char → Option (JArr × List Char)
  | 0, _, _ => none
  | _ + 1, _, [] => none
  | fuel + 1, v, c :: r2 =>
    if c = ',' then consWrapA v (parseArrItems fuel r2)
    else if c = ']' then some (.cons v .nil, r2)
    else none
/-- Read the fields of a nonempty object (position: at the first key) and
the closing brace. -/
def parseObjItems : Nat → List Char → Option (JObj × List Char)
  | 0, _ => none
  | fuel + 1, cs => objKey fuel (skipWs cs)
/-- At a field: the quoted key. -/
def objKey : Nat → List Char → Option (JObj × List Char)
  | 0, _ => none
  | _ + 1, [] => none
  | fuel + 1, c :: cs1 =>
    if c = quoteChar then objColon fuel (parseStringBody fuel [] cs1)
    else none
/-- After the key has been read. -/
def objColon : Nat → Option (String × List Char) → Option (JObj × List Char)
  | 0, _ => none
  | _ + 1, none => none
  | fuel + 1, some (k, r) => objColon2 fuel k (skipWs r)
/-- At the `:` between key and value. -/
def objColon2 : Nat → String → List Char → Option (JObj × List Char)
  | 0, _, _ => none
  | _ + 1, _, [] => none
  | fuel + 1, k, c :: r2 =>
    if c = ':' then objVal fuel k (parseValue fuel r2)
    else none
/-- After the field's value has been read. -/
def objVal : Nat → String → Option (JValue × List Char) → Option (JObj × List Char)
  | 0, _, _ => none
  | _ + 1, _, none => none
  | fuel + 1, k, some (v, r3) => objSep fuel k v (skipWs r3)
/-- At the separator after a field: `,` continues, `}` closes. -/
def objSep : Nat → String → JValue → List Char → Option (JObj × List Char)
  | 0, _, _, _ => none
  | _ + 1, _, _, [] => none
  | fuel + 1, k, v, c :: r4 =>
    if c = ',' then consWrapO k v (parseObjItems fuel r4)
    else if c = rbraceChar then some (.cons k v .nil, r4)
    else none
end

/-- Accept a parsed document only when nothing but whitespace remains. -/
def jsonParseFinish : Option (JValue × List Char) → Option JValue
  | some (v, rest) => if skipWs rest = [] then some v else none
  | none => none

/-- Model of `json.load` on a whole document: parse one value, then require only
whitespace to remain. -/
def jsonParse (s : String) : Option JValue :=
  jsonParseFinish (parseValue (2 * s.length + 2) s.data)

/-! ## The persister and the program entry point (`__main__`, lines 65-81) -/

/-- The fixed output path (line 72). -/
def outputPath : String := "/workspace/data/scholar_research_results.json"

/-- A file system: contents by path. -/
abbrev FileSystem := String → Option String

/-- Model of `open(path, 'w')` followed by a full write: the new contents replace
whatever was at the path. -/
def writeFile (fs : FileSystem) (path contents : String) : FileSystem :=
  fun p => if p = path then some contents else fs p

/-- Lines 72-73: serialise the bundle and write it to the fixed path. -/
def persistBundle (fs : FileSystem) (bundle : List (String × JValue)) : FileSystem :=
  writeFile fs outputPath (jsonDumpBundle bundle)

/-- Outcome of one run of the script: the contents written to the output
file (`none` when the run aborted before the write), the summary lines
printed, and whether the process exited cleanly. -/
structure RunOutcome where
  fileContents : Option String
  consoleLines : List String
  exitOk : Bool
deriving DecidableEq

/-- The `__main__` block (lines 65-81): run the adapter (caller thread `0`
is the main thread), and on a raised fault abort with no file written;
otherwise write the JSON file, then print the per-category summary. -/
def mainRun (client : SearchClient) (ord : List Nat) : RunOutcome :=
  match (run_async_with_thread_pool 0 client ord).1 with
  | .error _ => { fileContents := none, consoleLines := [], exitOk := false }
  | .ok bundle =>
    let printed := printLoop bundle
    { fileContents := some (jsonDumpBundle bundle)
      consoleLines := printed.1
      exitOk := printed.2 }

/-! ## Measures and side conditions used by the round-trip proof -/

mutual
/-- Fuel bound for parsing a dumped value: enough recursion budget for the
parser on the value's serialisation. -/
def jsizeV : JValue → Nat
  | .null => 2
  | .bool _ => 2
  | .num _ => 2
  | .str s => s.length + 3
  | .arr xs => 3 + jsizeA xs
  | .obj fs => 3 + jsizeO fs
/-- Fuel bound for reading the item list of a nonempty array. -/
def jsizeA : JArr → Nat
  | .nil => 0
  | .cons v tl => 3 + jsizeV v + jsizeA tl
/-- Fuel bound for reading the field list of a nonempty object. -/
def jsizeO : JObj → Nat
  | .nil => 0
  | .cons k v tl => 6 + k.length + jsizeV v + jsizeO tl
end

/-- The first character, if any, is not a decimal digit (so a digit run
ending at this suffix is maximal). -/
def headNotDigit : List Char → Prop
  | [] => True
  | c :: _ => isDigitCh c = false

/-- Value of a digit run read left to right onto an accumulator. -/
def digitsVal (ds : List Char) (acc : Nat) : Nat :=
  ds.foldl (fun a c => a * 10 + digitVal c) acc

/-! ## Shared lemmas about the runner and the summary loop -/

/-- When all five client calls return results, the gather sees no fault under
any completion order and the bundle is the five labelled results in
submission order. -/
theorem bundle_of_ok (client : SearchClient) (ord : List Nat)
    (v0 v1 v2 v3 v4 : JValue)
    (h0 : client querySpec0 = .ok v0) (h1 : client querySpec1 = .ok v1)
    (h2 : client querySpec2 = .ok v2) (h3 : client querySpec3 = .ok v3)
    (h4 : client querySpec4 = .ok v4) :
    search_scholar_papers client ord =
      .ok [("content_curation", v0), ("recommendation_systems", v1),
           ("automated_reporting", v2), ("financial_visualization", v3),
           ("content_aggregation", v4)] := by
  have htasks : searchTasks client = [.ok v0, .ok v1, .ok v2, .ok v3, .ok v4] := by
    simp [searchTasks, scholarQueries, h0, h1, h2, h3, h4]
  have hff : firstFault (searchTasks client) ord = none := by
    rw [firstFault]
    refine List.findSome?_eq_none_iff.mpr ?_
    intro i _
    rw [htasks]
    match i with
    | 0 | 1 | 2 | 3 | 4 => rfl
    | n + 5 => simp [taskAt]
  rw [search_scholar_papers, gatherOrd, hff, htasks]
  rfl

/-- The completion-order scan reports no fault iff no scheduled task
faulted. -/
theorem firstFault_eq_none (tasks : List (Except Fault JValue)) (ord : List Nat) :
    firstFault tasks ord = none ↔ ∀ i ∈ ord, ∀ f, taskAt tasks i ≠ .error f := by
  rw [firstFault, List.findSome?_eq_none_iff]
  constructor
  · intro h i hi f heq
    have := h i hi
    rw [heq] at this
    simp at this
  · intro h i hi
    cases htask : taskAt tasks i with
    | error f => exact absurd htask (h i hi f)
    | ok v => rfl

/-- A success-flagged result takes the count branch of the summary line. -/
theorem summaryLine_success (cat : String) (fs : JObj) (sv : JValue)
    (hs : fs.lookup "success" = some sv) (ht : truthy sv = true) :
    summaryLine cat (.obj fs) =
      match pyGetD (.obj fs) "data" (.obj .nil) with
      | .error e => .error e
      | .ok data =>
        match pyGetD data "papers" (.arr .nil) with
        | .error e => .error e
        | .ok papers =>
          match pyLen papers with
          | .error e => .error e
          | .ok n => .ok (foundLine cat n) := by
  rw [summaryLine, pyGet, hs]
  simp [ht]

/-- A result whose `success` field is absent or falsy takes the failure
branch of the summary line. -/
theorem summaryLine_failure (cat : String) (fs : JObj)
    (h : fs.lookup "success" = none ∨
         ∃ sv, fs.lookup "success" = some sv ∧ truthy sv = false) :
    summaryLine cat (.obj fs) =
      .ok (failLine cat ((fs.lookup "error").getD (.str "Unknown error"))) := by
  rcases h with h | ⟨sv, hs, ht⟩
  · rw [summaryLine, pyGet, h]
    simp [truthy, pyGetD]
  · rw [summaryLine, pyGet, hs]
    simp [ht, pyGetD]

/-- A count line and a failure line never coincide: after the shared
`"{category}: "` prefix one continues with `F`, the other with `S`. -/
theorem foundLine_ne_failLine (cat : String) (n : Nat) (err : JValue) :
    foundLine cat n ≠ failLine cat err := by
  intro h
  have hd := congrArg String.data h
  simp only [foundLine, failLine, String.data_append, List.append_assoc] at hd
  have hc := List.append_cancel_left hd
  simp at hc

/-! ## Claims about the fan-out runner -/

/-- C1: when all five client calls complete without raising, the bundle has
exactly the five fixed labels in insertion order and the Nth query's result
is the Nth label's value, for every completion order. -/
theorem c1_bundle_keys_positional (client : SearchClient) (ord : List Nat)
    (v0 v1 v2 v3 v4 : JValue)
    (h0 : client querySpec0 = .ok v0) (h1 : client querySpec1 = .ok v1)
    (h2 : client querySpec2 = .ok v2) (h3 : client querySpec3 = .ok v3)
    (h4 : client querySpec4 = .ok v4) :
    search_scholar_papers client ord =
      .ok [("content_curation", v0), ("recommendation_systems", v1),
           ("automated_reporting", v2), ("financial_visualization", v3),
           ("content_aggregation", v4)] :=
  bundle_of_ok client ord v0 v1 v2 v3 v4 h0 h1 h2 h3 h4

/-- C1 witness: a concrete all-ok client under a reversed completion order
still yields the positionally labelled five-entry bundle. -/
theorem c1_bundle_keys_positional_runs :
    search_scholar_papers (fun _ => .ok (.str "x")) [4, 3, 2, 1, 0] =
      .ok [("content_curation", .str "x"), ("recommendation_systems", .str "x"),
           ("automated_reporting", .str "x"), ("financial_visualization", .str "x"),
           ("content_aggregation", .str "x")] :=
  c1_bundle_keys_positional (fun _ => .ok (.str "x")) [4, 3, 2, 1, 0]
    (.str "x") (.str "x") (.str "x") (.str "x") (.str "x") rfl rfl rfl rfl rfl

/-- C2: a success-flagged result prints `"{category}: Found {N} papers"`
with `N` the length of `data.papers`, and `N = 0` without fault when `data`
or `papers` is absent (an empty `papers` list is the length-0 instance of
the first part). -/
theorem c2_success_paper_count (cat : String) (fs : JObj) (sv : JValue)
    (hs : fs.lookup "success" = some sv) (ht : truthy sv = true) :
    (∀ dfs ps, fs.lookup "data" = some (.obj dfs) →
      dfs.lookup "papers" = some (.arr ps) →
      summaryLine cat (.obj fs) = .ok (foundLine cat ps.length)) ∧
    (fs.lookup "data" = none →
      summaryLine cat (.obj fs) = .ok (foundLine cat 0)) ∧
    (∀ dfs, fs.lookup "data" = some (.obj dfs) → dfs.lookup "papers" = none →
      summaryLine cat (.obj fs) = .ok (foundLine cat 0)) := by
  rw [summaryLine_success cat fs sv hs ht]
  refine ⟨?_, ?_, ?_⟩
  · intro dfs ps hdata hpapers
    simp [pyGetD, hdata, hpapers, pyLen]
  · intro hdata
    simp [pyGetD, hdata, pyLen, JObj.lookup, JArr.length]
  · intro dfs hdata hpapers
    simp [pyGetD, hdata, hpapers, pyLen, JArr.length]

/-- C2 witness: one paper in `data.papers` on a success-flagged result
prints a count of 1. -/
theorem c2_success_paper_count_runs :
    summaryLine "content_curation"
        (.obj (.cons "success" (.bool true)
          (.cons "data" (.obj (.cons "papers" (.arr (.cons .null .nil)) .nil)) .nil))) =
      .ok (foundLine "content_curation" 1) :=
  (c2_success_paper_count "content_curation"
      (.cons "success" (.bool true)
        (.cons "data" (.obj (.cons "papers" (.arr (.cons .null .nil)) .nil)) .nil))
      (.bool true) rfl rfl).1
    (.cons "papers" (.arr (.cons .null .nil)) .nil) (.cons .null .nil) rfl rfl

/-- C3: if any one of the five calls returns an error-flagged result
without raising while the other four return results, the bundle still has
all five entries, the failing position's bundle entry pairs the failing
category's label with that result, and that category's console line is
`"{category}: Search failed - {error}"`, with `Unknown error` substituted
when the `error` field is absent. -/
theorem c3_error_flagged_still_bundled (client : SearchClient) (ord : List Nat)
    (k : Nat) (v0 v1 v2 v3 v4 : JValue) (fs : JObj)
    (hk : k < 5)
    (h0 : client querySpec0 = .ok v0) (h1 : client querySpec1 = .ok v1)
    (h2 : client querySpec2 = .ok v2) (h3 : client querySpec3 = .ok v3)
    (h4 : client querySpec4 = .ok v4)
    (hv : [v0, v1, v2, v3, v4].getD k .null = .obj fs)
    (hs : fs.lookup "success" = some (.bool false)) :
    search_scholar_papers client ord =
      .ok [("content_curation", v0), ("recommendation_systems", v1),
           ("automated_reporting", v2), ("financial_visualization", v3),
           ("content_aggregation", v4)] ∧
    [("content_curation", v0), ("recommendation_systems", v1),
     ("automated_reporting", v2), ("financial_visualization", v3),
     ("content_aggregation", v4)].getD k ("", .null) =
      (categoryLabels.getD k "", .obj fs) ∧
    (∀ e, fs.lookup "error" = some (.str e) →
      summaryLine (categoryLabels.getD k "") (.obj fs) =
        .ok (failLine (categoryLabels.getD k "") (.str e))) ∧
    (fs.lookup "error" = none →
      summaryLine (categoryLabels.getD k "") (.obj fs) =
        .ok (failLine (categoryLabels.getD k "") (.str "Unknown error"))) := by
  refine ⟨bundle_of_ok client ord v0 v1 v2 v3 v4 h0 h1 h2 h3 h4, ?_, ?_, ?_⟩
  · interval_cases k <;> simp_all [categoryLabels]
  · intro e he
    rw [summaryLine_failure (categoryLabels.getD k "") fs
        (Or.inr ⟨.bool false, hs, rfl⟩), he]
    rfl
  · intro he
    rw [summaryLine_failure (categoryLabels.getD k "") fs
        (Or.inr ⟨.bool false, hs, rfl⟩), he]
    rfl

/-- C3 witness: a concrete run where the fourth query (position 3,
`financial_visualization`) is rate limited and the other four succeed. -/
theorem c3_error_flagged_still_bundled_runs :
    search_scholar_papers
        (fun q => if q.query = "financial data visualization real-time analytics"
          then .ok (.obj (.cons "success" (.bool false)
            (.cons "error" (.str "rate limited") .nil)))
          else .ok (.str "ok"))
        [0, 1, 2, 3, 4] =
      .ok [("content_curation", .str "ok"), ("recommendation_systems", .str "ok"),
           ("automated_reporting", .str "ok"),
           ("financial_visualization",
             .obj (.cons "success" (.bool false)
               (.cons "error" (.str "rate limited") .nil))),
           ("content_aggregation", .str "ok")] ∧
    summaryLine "financial_visualization"
        (.obj (.cons "success" (.bool false)
          (.cons "error" (.str "rate limited") .nil))) =
      .ok (failLine "financial_visualization" (.str "rate limited")) := by
  have h := c3_error_flagged_still_bundled
    (fun q => if q.query = "financial data visualization real-time analytics"
      then .ok (.obj (.cons "success" (.bool false)
        (.cons "error" (.str "rate limited") .nil)))
      else .ok (.str "ok"))
    [0, 1, 2, 3, 4] 3 (.str "ok") (.str "ok") (.str "ok")
    (.obj (.cons "success" (.bool false) (.cons "error" (.str "rate limited") .nil)))
    (.str "ok")
    (.cons "success" (.bool false) (.cons "error" (.str "rate limited") .nil))
    (by decide) rfl rfl rfl rfl rfl rfl rfl
  exact ⟨h.1, h.2.2.1 "rate limited" rfl⟩

/-- C4: a raised fault in any scheduled call makes the gather propagate it:
no bundle is returned, no file contents are produced, nothing is printed,
and the process exits with a fault. -/
theorem c4_fault_aborts_run (client : SearchClient) (ord : List Nat)
    (k : Nat) (f : Fault)
    (hk : k < 5) (hf : client (scholarQueries.getD k querySpec0) = .error f)
    (hmem : k ∈ ord) :
    (∃ g, search_scholar_papers client ord = .error g) ∧
    (mainRun client ord).fileContents = none ∧
    (mainRun client ord).consoleLines = [] ∧
    (mainRun client ord).exitOk = false := by
  have htask : taskAt (searchTasks client) k = .error f := by
    interval_cases k <;> simpa [taskAt, searchTasks, scholarQueries] using hf
  have hne : firstFault (searchTasks client) ord ≠ none := by
    intro hnone
    exact (firstFault_eq_none (searchTasks client) ord).mp hnone k hmem f htask
  obtain ⟨g, hg⟩ := Option.ne_none_iff_exists'.mp hne
  have hsearch : search_scholar_papers client ord = .error g := by
    rw [search_scholar_papers, gatherOrd, hg]
  refine ⟨⟨g, hsearch⟩, ?_, ?_, ?_⟩ <;>
    simp [mainRun, run_async_with_thread_pool, hsearch]

/-- C4 witness: an always-raising client with the identity schedule aborts
the run with no file contents and a fault exit. -/
theorem c4_fault_aborts_run_fails :
    (mainRun (fun _ => .error { msg := "boom" }) [0, 1, 2, 3, 4]).fileContents = none ∧
    (mainRun (fun _ => .error { msg := "boom" }) [0, 1, 2, 3, 4]).exitOk = false :=
  ⟨(c4_fault_aborts_run (fun _ => .error { msg := "boom" }) [0, 1, 2, 3, 4] 1
      { msg := "boom" } (by decide) rfl (by decide)).2.1,
   (c4_fault_aborts_run (fun _ => .error { msg := "boom" }) [0, 1, 2, 3, 4] 1
      { msg := "boom" } (by decide) rfl (by decide)).2.2.2⟩

/-! ## Claims about the execution adapter -/

/-- C7: the adapter creates a dedicated event loop, runs
`search_scholar_papers` to completion on it (its result is passed through
unchanged), and the loop is closed on both the normal and the raising exit
path. -/
theorem c7_loop_closed_every_path (callerThread : Nat) (client : SearchClient)
    (ord : List Nat) :
    (run_async_with_thread_pool callerThread client ord).2.loopCreated = true ∧
    (run_async_with_thread_pool callerThread client ord).2.loopClosed = true ∧
    (run_async_with_thread_pool callerThread client ord).1 =
      search_scholar_papers client ord := by
  cases h : search_scholar_papers client ord <;>
    simp [run_async_with_thread_pool, h]

/-- C8 counterexample: at a concrete input (caller thread 0, an all-ok
client, the identity schedule) it is false that the cooperative context runs
on a worker thread distinct from the caller's supplied by the pool — the
loop-hosting thread is the caller's own and no task is ever submitted to the
pool. -/
theorem c8_worker_thread_false :
    ¬ ((run_async_with_thread_pool 0 (fun _ => .ok .null) [0, 1, 2, 3, 4]).2.loopHostThread ≠ 0 ∧
       0 < (run_async_with_thread_pool 0 (fun _ => .ok .null) [0, 1, 2, 3, 4]).2.poolTasksSubmitted) := by
  decide

/-- C8 amended: `run_async_with_thread_pool` creates a thread pool but never
submits any work to it, and the event loop runs on the synchronous caller's
own thread. -/
theorem c8_pool_created_unused (callerThread : Nat) (client : SearchClient)
    (ord : List Nat) :
    (run_async_with_thread_pool callerThread client ord).2.poolCreated = true ∧
    (run_async_with_thread_pool callerThread client ord).2.poolTasksSubmitted = 0 ∧
    (run_async_with_thread_pool callerThread client ord).2.loopHostThread = callerThread := by
  cases h : search_scholar_papers client ord <;>
    simp [run_async_with_thread_pool, h]

/-! ## Claims about the summary loop's failure branches -/

/-- C9: whenever the `success` field is absent or falsy (not only the
explicit `success: false` shape), the summary takes the failure branch —
printing the failure line, with `Unknown error` when `error` is also absent
— and never reports a paper count. -/
theorem c9_falsy_success_fails (cat : String) (fs : JObj)
    (h : fs.lookup "success" = none ∨
         ∃ sv, fs.lookup "success" = some sv ∧ truthy sv = false) :
    summaryLine cat (.obj fs) =
      .ok (failLine cat ((fs.lookup "error").getD (.str "Unknown error"))) ∧
    ∀ n : Nat, summaryLine cat (.obj fs) ≠ .ok (foundLine cat n) := by
  have hline := summaryLine_failure cat fs h
  refine ⟨hline, fun n hcontra => ?_⟩
  rw [hline] at hcontra
  exact foundLine_ne_failLine cat n _ (Except.ok.inj hcontra).symm

/-- C9 witness: a result with `success: 0` (falsy but not `false`) and no
`error` field prints the `Unknown error` failure line. -/
theorem c9_falsy_success_fails_runs :
    summaryLine "content_curation" (.obj (.cons "success" (.num 0) .nil)) =
      .ok (failLine "content_curation" (.str "Unknown error")) :=
  (c9_falsy_success_fails "content_curation" (.cons "success" (.num 0) .nil)
    (Or.inr ⟨.num 0, rfl, rfl⟩)).1

/-- C10: the zero-default is not total: a success-flagged result whose
`data` field is present but `null` faults with `AttributeError` (the `.get`
default applies only to a missing key, and `None.get` does not exist). -/
theorem c10_null_data_faults (cat : String) (fs : JObj) (sv : JValue)
    (hs : fs.lookup "success" = some sv) (ht : truthy sv = true)
    (hd : fs.lookup "data" = some .null) :
    summaryLine cat (.obj fs) = .error .attributeError := by
  rw [summaryLine_success cat fs sv hs ht]
  simp [pyGetD, hd]

/-- C10 witness: `{success: true, data: null}` faults instead of reporting a
zero count. -/
theorem c10_null_data_faults_runs :
    summaryLine "content_curation"
        (.obj (.cons "success" (.bool true) (.cons "data" .null .nil))) =
      .error .attributeError :=
  c10_null_data_faults "content_curation"
    (.cons "success" (.bool true) (.cons "data" .null .nil)) (.bool true) rfl rfl rfl

/-! ## Determinism of the pipeline in the client's responses -/

/-- C6: two runs whose clients return identical results for identical
queries produce identical output-file contents under any two complete
schedules, and a second persist overwrites the first with the same
contents. -/
theorem c6_runs_byte_identical (c1 c2 : SearchClient) (ord1 ord2 : List Nat)
    (fs : FileSystem)
    (hagree : ∀ q, c1 q = c2 q)
    (hp1 : ord1.Perm (List.range 5)) (hp2 : ord2.Perm (List.range 5)) :
    (mainRun c1 ord1).fileContents = (mainRun c2 ord2).fileContents ∧
    ∀ bundle, persistBundle (persistBundle fs bundle) bundle = persistBundle fs bundle := by
  have hc : c1 = c2 := funext hagree
  subst hc
  constructor
  · have hmem : ∀ i : Nat, i ∈ ord1 ↔ i ∈ ord2 := fun i =>
      hp1.mem_iff.trans hp2.mem_iff.symm
    rcases hf1 : firstFault (searchTasks c1) ord1 with _ | g1 <;>
      rcases hf2 : firstFault (searchTasks c1) ord2 with _ | g2
    · simp [mainRun, run_async_with_thread_pool, search_scholar_papers, gatherOrd, hf1, hf2]
    · exfalso
      have hnone2 : firstFault (searchTasks c1) ord2 = none := by
        rw [firstFault_eq_none]
        intro i hi f
        exact (firstFault_eq_none (searchTasks c1) ord1).mp hf1 i ((hmem i).mpr hi) f
      rw [hnone2] at hf2
      exact Option.noConfusion hf2
    · exfalso
      have hnone1 : firstFault (searchTasks c1) ord1 = none := by
        rw [firstFault_eq_none]
        intro i hi f
        exact (firstFault_eq_none (searchTasks c1) ord2).mp hf2 i ((hmem i).mp hi) f
      rw [hnone1] at hf1
      exact Option.noConfusion hf1
    · simp [mainRun, run_async_with_thread_pool, search_scholar_papers, gatherOrd, hf1, hf2]
  · intro bundle
    funext p
    by_cases hp : p = outputPath <;> simp [persistBundle, writeFile, hp]

/-- C6 witness: an all-ok client under the identity and the reversed
schedule writes byte-identical file contents. -/
theorem c6_runs_byte_identical_runs :
    (mainRun (fun _ => .ok .null) [0, 1, 2, 3, 4]).fileContents =
      (mainRun (fun _ => .ok .null) [4, 3, 2, 1, 0]).fileContents :=
  (c6_runs_byte_identical (fun _ => .ok .null) (fun _ => .ok .null)
    [0, 1, 2, 3, 4] [4, 3, 2, 1, 0] (fun _ => none) (fun _ => rfl)
    (by decide) (by decide)).1

/-! ## Whitespace and digit lemmas -/

/-- Skipping whitespace passes over a whitespace character. -/
theorem skipWs_cons_of_ws (c : Char) (l : List Char) (h : isWs c = true) :
    skipWs (c :: l) = skipWs l := by
  simp [skipWs, h]

/-- Skipping whitespace stops at a non-whitespace character. -/
theorem skipWs_cons_of_not (c : Char) (l : List Char) (h : isWs c = false) :
    skipWs (c :: l) = c :: l := by
  simp [skipWs, h]

/-- Skipping whitespace removes a whitespace-only prefix. -/
theorem skipWs_append_ws (pre l : List Char) (h : ∀ c ∈ pre, isWs c = true) :
    skipWs (pre ++ l) = skipWs l := by
  induction pre with
  | nil => rfl
  | cons c tl ih =>
    rw [List.cons_append, skipWs_cons_of_ws c _ (h c (List.mem_cons_self c tl))]
    exact ih fun x hx => h x (List.mem_cons_of_mem c hx)

/-- Indentation is whitespace. -/
theorem isWs_indentChars (n : Nat) : ∀ c ∈ indentChars n, isWs c = true := by
  intro c hc
  rw [indentChars] at hc
  rw [List.eq_of_mem_replicate hc]
  decide

/-- Digit characters built by the printer are digits. -/
theorem isDigitCh_digitChar (d : Nat) (h : d < 10) : isDigitCh (digitChar d) = true := by
  interval_cases d <;> decide

/-- Reading back a printed digit recovers its value. -/
theorem digitVal_digitChar (d : Nat) (h : d < 10) : digitVal (digitChar d) = d := by
  interval_cases d <;> decide

/-- A decimal digit is none of the parser's structural dispatch characters
and is not whitespace. -/
theorem digit_head_props (c : Char) (h : isDigitCh c = true) :
    isWs c = false ∧ c ≠ lbraceChar ∧ c ≠ '[' ∧ c ≠ quoteChar ∧ c ≠ 'n' ∧
      c ≠ 't' ∧ c ≠ 'f' ∧ c ≠ '-' ∧ c ≠ ']' ∧ c ≠ rbraceChar ∧ c ≠ ',' := by
  simp only [isDigitCh, decide_eq_true_eq] at h
  refine ⟨?_, ?_, ?_, ?_, ?_, ?_, ?_, ?_, ?_, ?_, ?_⟩
  · simp only [isWs, Bool.or_eq_false_iff, beq_eq_false_iff_ne]
    refine ⟨⟨⟨?_, ?_⟩, ?_⟩, ?_⟩ <;> (intro he; rw [he] at h; exact absurd h (by decide))
  all_goals intro he; rw [he] at h; exact absurd h (by decide)

/-- Whitespace is not a digit. -/
theorem not_digit_of_ws (c : Char) (h : isWs c = true) : isDigitCh c = false := by
  simp only [isWs, Bool.or_eq_true, beq_iff_eq] at h
  rcases h with ((h | h) | h) | h <;> (subst h; decide)

/-- Reading a digit run followed by a non-digit suffix yields the run's
value and the untouched suffix. -/
theorem parseNatAcc_spec (ds : List Char) : ∀ (rest : List Char) (acc : Nat),
    (∀ c ∈ ds, isDigitCh c = true) → headNotDigit rest →
    parseNatAcc (ds ++ rest) acc = (digitsVal ds acc, rest) := by
  induction ds with
  | nil =>
    intro rest acc _ hrest
    cases rest with
    | nil => rfl
    | cons c tl =>
      simp only [headNotDigit] at hrest
      simp [parseNatAcc, hrest, digitsVal]
  | cons d tl ih =>
    intro rest acc hds hrest
    rw [List.cons_append, parseNatAcc, if_pos (hds d (List.mem_cons_self d tl))]
    rw [ih rest _ (fun c hc => hds c (List.mem_cons_of_mem d hc)) hrest]
    rfl

/-- Every character the decimal printer emits is a digit. -/
theorem natDigitsAux_digits (fuel : Nat) : ∀ n, ∀ c ∈ natDigitsAux fuel n, isDigitCh c = true := by
  induction fuel with
  | zero =>
    intro n c hc
    simp [natDigitsAux] at hc
  | succ f ih =>
    intro n c hc
    rw [natDigitsAux] at hc
    by_cases hn : n = 0
    · simp [hn] at hc
    · rw [if_neg hn] at hc
      rcases List.mem_append.mp hc with h | h
      · exact ih _ c h
      · rw [List.mem_singleton.mp h]
        exact isDigitCh_digitChar _ (Nat.mod_lt _ (by norm_num))

/-- Value of the digit run the decimal printer emits, over an arbitrary
accumulator. -/
theorem digitsVal_natDigitsAux (fuel : Nat) : ∀ n acc, n ≤ fuel →
    digitsVal (natDigitsAux fuel n) acc =
      acc * 10 ^ (natDigitsAux fuel n).length + n := by
  induction fuel with
  | zero =>
    intro n acc h
    interval_cases n
    simp [natDigitsAux, digitsVal]
  | succ f ih =>
    intro n acc h
    by_cases hn : n = 0
    · subst hn
      simp [natDigitsAux, digitsVal]
    · rw [natDigitsAux, if_neg hn]
      rw [digitsVal, List.foldl_append]
      have hd : digitVal (digitChar (n % 10)) = n % 10 :=
        digitVal_digitChar _ (Nat.mod_lt _ (by norm_num))
      have hih := ih (n / 10) acc (by omega)
      rw [digitsVal] at hih
      simp only [List.foldl_cons, List.foldl_nil]
      rw [hih, hd, List.length_append, List.length_singleton]
      have hmod : n / 10 * 10 + n % 10 = n := by omega
      calc (acc * 10 ^ (natDigitsAux f (n / 10)).length + n / 10) * 10 + n % 10
          = acc * (10 ^ (natDigitsAux f (n / 10)).length * 10) +
              (n / 10 * 10 + n % 10) := by ring
        _ = acc * 10 ^ ((natDigitsAux f (n / 10)).length + 1) + n := by
            rw [pow_succ, hmod]

/-- The decimal printer: all digits, correct value from a zero accumulator,
and nonempty. -/
theorem natPrint_spec (n : Nat) :
    (∀ c ∈ natPrint n, isDigitCh c = true) ∧ digitsVal (natPrint n) 0 = n ∧
      natPrint n ≠ [] := by
  rw [natPrint]
  by_cases hn : n = 0
  · subst hn
    refine ⟨?_, ?_, ?_⟩ <;> simp [digitsVal] <;> decide
  · rw [if_neg hn]
    refine ⟨natDigitsAux_digits n n, ?_, ?_⟩
    · rw [digitsVal_natDigitsAux n n 0 le_rfl]
      simp
    · cases n with
      | zero => exact absurd rfl hn
      | succ m =>
        rw [natDigitsAux, if_neg hn]
        simp

/-! ## String escape round-trip -/

/-- Reading back a printed hex digit recovers its value. -/
theorem hexVal_hexChar (d : Nat) (h : d < 16) : hexVal (hexChar d) = some d := by
  interval_cases d <;> decide

/-- Reading back four printed hex digits recovers the code unit. -/
theorem parseHex4_hex4 (m : Nat) (rest : List Char) (h : m < 65536) :
    parseHex4 (hex4 m ++ rest) = some (m, rest) := by
  rw [hex4, List.cons_append, List.cons_append, List.cons_append, List.cons_append,
      List.nil_append, parseHex4]
  rw [hexVal_hexChar _ (by omega), hexVal_hexChar _ (Nat.mod_lt _ (by norm_num)),
      hexVal_hexChar _ (Nat.mod_lt _ (by norm_num)), hexVal_hexChar _ (Nat.mod_lt _ (by norm_num))]
  show some (4096 * (m / 4096) + 256 * (m / 256 % 16) + 16 * (m / 16 % 16) + m % 16, rest) =
    some (m, rest)
  have : 4096 * (m / 4096) + 256 * (m / 256 % 16) + 16 * (m / 16 % 16) + m % 16 = m := by
    omega
  rw [this]

/-- The valid-scalar range of a `Char`'s code point: below the surrogate
block, or between it and `0x110000`. -/
theorem char_toNat_range (c : Char) : c.toNat < 55296 ∨ (57344 ≤ c.toNat ∧ c.toNat < 1114112) := by
  have hv := c.valid
  rw [UInt32.isValidChar, Nat.isValidChar] at hv
  exact hv

/-- The string-body reader on a backslash defers to the escape reader. -/
theorem parseStringBody_backslash (fuel : Nat) (acc tl : List Char) :
    parseStringBody (fuel + 1) acc (backslashChar :: tl) =
      match parseEscape tl with
      | some (ch, tl2) => parseStringBody fuel (ch :: acc) tl2
      | none => none := by
  rw [parseStringBody, if_neg (by decide : ¬(backslashChar = quoteChar)), if_pos rfl]

/-- A non-surrogate 4-digit hex escape reads back as its code point. -/
theorem parseEscape_u_singleton (u : Nat) (rest : List Char) (h16 : u < 65536)
    (hs1 : ¬(55296 ≤ u ∧ u ≤ 56319)) (hs2 : ¬(56320 ≤ u ∧ u ≤ 57343)) :
    parseEscape ('u' :: (hex4 u ++ rest)) = some (Char.ofNat u, rest) := by
  rw [parseEscape]
  rw [if_neg (by decide : ¬(('u' : Char) = quoteChar)),
      if_neg (by decide : ¬(('u' : Char) = backslashChar)),
      if_neg (by decide : ¬(('u' : Char) = '/')), if_neg (by decide : ¬(('u' : Char) = 'b')),
      if_neg (by decide : ¬(('u' : Char) = 'f')), if_neg (by decide : ¬(('u' : Char) = 'n')),
      if_neg (by decide : ¬(('u' : Char) = 'r')), if_neg (by decide : ¬(('u' : Char) = 't')),
      if_pos rfl]
  rw [parseHex4_hex4 _ _ h16]
  simp only [if_neg hs1, if_neg hs2]

/-- A surrogate-pair escape reads back as the astral code point it
encodes. -/
theorem parseEscape_u_pair (hi lo : Nat) (rest : List Char)
    (h1 : 55296 ≤ hi) (h2 : hi ≤ 56319) (h3 : 56320 ≤ lo) (h4 : lo ≤ 57343) :
    parseEscape ('u' :: (hex4 hi ++ (backslashChar :: 'u' :: (hex4 lo ++ rest)))) =
      some (Char.ofNat (65536 + 1024 * (hi - 55296) + (lo - 56320)), rest) := by
  rw [parseEscape]
  rw [if_neg (by decide : ¬(('u' : Char) = quoteChar)),
      if_neg (by decide : ¬(('u' : Char) = backslashChar)),
      if_neg (by decide : ¬(('u' : Char) = '/')), if_neg (by decide : ¬(('u' : Char) = 'b')),
      if_neg (by decide : ¬(('u' : Char) = 'f')), if_neg (by decide : ¬(('u' : Char) = 'n')),
      if_neg (by decide : ¬(('u' : Char) = 'r')), if_neg (by decide : ¬(('u' : Char) = 't')),
      if_pos rfl]
  rw [parseHex4_hex4 _ _ (by omega)]
  simp only [if_pos (⟨h1, h2⟩ : 55296 ≤ hi ∧ hi ≤ 56319), and_self, if_true]
  rw [parseHex4_hex4 _ _ (by omega)]
  simp only [if_pos (⟨h3, h4⟩ : 56320 ≤ lo ∧ lo ≤ 57343)]

/-- One step of the string-body reader over one escaped character: it
consumes the escape and appends the original character. -/
theorem parseStringBody_escChar (c : Char) (fuel : Nat) (acc rest : List Char) :
    parseStringBody (fuel + 1) acc (escChar c ++ rest) =
      parseStringBody fuel (c :: acc) rest := by
  have hrange := char_toNat_range c
  by_cases h1 : c.toNat = 34
  · have hc : c = quoteChar := by
      rw [← Char.ofNat_toNat c, h1]
      rfl
    subst hc
    rfl
  by_cases h2 : c.toNat = 92
  · have hc : c = backslashChar := by
      rw [← Char.ofNat_toNat c, h2]
      rfl
    subst hc
    rfl
  by_cases h3 : c.toNat = 8
  · have hc : c = Char.ofNat 8 := by rw [← Char.ofNat_toNat c, h3]
    subst hc
    rfl
  by_cases h4 : c.toNat = 9
  · have hc : c = Char.ofNat 9 := by rw [← Char.ofNat_toNat c, h4]
    subst hc
    rfl
  by_cases h5 : c.toNat = 10
  · have hc : c = Char.ofNat 10 := by rw [← Char.ofNat_toNat c, h5]
    subst hc
    rfl
  by_cases h6 : c.toNat = 12
  · have hc : c = Char.ofNat 12 := by rw [← Char.ofNat_toNat c, h6]
    subst hc
    rfl
  by_cases h7 : c.toNat = 13
  · have hc : c = Char.ofNat 13 := by rw [← Char.ofNat_toNat c, h7]
    subst hc
    rfl
  by_cases h8 : c.toNat < 32
  · -- other control characters: a 4-digit hex escape below 0x20
    have he : escChar c = backslashChar :: 'u' :: hex4 c.toNat := by
      simp only [escChar]
      rw [if_neg h1, if_neg h2, if_neg h3, if_neg h4, if_neg h5, if_neg h6, if_neg h7,
          if_pos h8]
    rw [he, List.cons_append, List.cons_append, parseStringBody_backslash,
        parseEscape_u_singleton _ _ (by omega) (by omega) (by omega), Char.ofNat_toNat]
  by_cases h9 : c.toNat ≤ 126
  · -- plain printable ASCII: emitted raw
    have he : escChar c = [c] := by
      simp only [escChar]
      rw [if_neg h1, if_neg h2, if_neg h3, if_neg h4, if_neg h5, if_neg h6, if_neg h7,
          if_neg h8, if_pos h9]
    rw [he, List.cons_append, List.nil_append, parseStringBody,
        if_neg (fun hq => h1 (by rw [hq]; rfl)), if_neg (fun hb => h2 (by rw [hb]; rfl))]
  by_cases h10 : c.toNat < 65536
  · -- other BMP code points: a 4-digit hex escape (never a surrogate)
    have he : escChar c = backslashChar :: 'u' :: hex4 c.toNat := by
      simp only [escChar]
      rw [if_neg h1, if_neg h2, if_neg h3, if_neg h4, if_neg h5, if_neg h6, if_neg h7,
          if_neg h8, if_neg h9, if_pos h10]
    rw [he, List.cons_append, List.cons_append, parseStringBody_backslash,
        parseEscape_u_singleton _ _ (by omega) (by omega) (by omega), Char.ofNat_toNat]
  · -- astral code points: a surrogate pair of hex escapes
    have he : escChar c =
        backslashChar :: 'u' :: (hex4 (55296 + (c.toNat - 65536) / 1024) ++
          backslashChar :: 'u' :: hex4 (56320 + (c.toNat - 65536) % 1024)) := by
      simp only [escChar]
      rw [if_neg h1, if_neg h2, if_neg h3, if_neg h4, if_neg h5, if_neg h6, if_neg h7,
          if_neg h8, if_neg h9, if_neg h10]
      simp [List.cons_append]
    have hub : c.toNat < 1114112 := by omega
    have hn : 65536 + 1024 * (55296 + (c.toNat - 65536) / 1024 - 55296) +
        (56320 + (c.toNat - 65536) % 1024 - 56320) = c.toNat := by omega
    rw [he, List.cons_append, List.cons_append, List.append_assoc, List.cons_append,
        List.cons_append, parseStringBody_backslash,
        parseEscape_u_pair _ _ _ (by omega) (by omega) (by omega) (by omega),
        hn, Char.ofNat_toNat]

/-- The string-body reader undoes the escape of a whole character list and
stops at the closing quote. -/
theorem parseStringBody_escList (cs : List Char) : ∀ (fuel : Nat) (acc rest : List Char),
    cs.length < fuel →
    parseStringBody fuel acc (escList cs ++ (quoteChar :: rest)) =
      some (String.mk (acc.reverse ++ cs), rest) := by
  induction cs with
  | nil =>
    intro fuel acc rest hfuel
    cases fuel with
    | zero => omega
    | succ f =>
      rw [escList, List.nil_append, parseStringBody, if_pos rfl]
      simp
  | cons c tl ih =>
    intro fuel acc rest hfuel
    cases fuel with
    | zero => omega
    | succ f =>
      rw [escList, List.append_assoc, parseStringBody_escChar]
      rw [ih f (c :: acc) rest (by simpa using Nat.lt_of_succ_lt_succ hfuel)]
      simp

/-! ## Shape and size lemmas for the dump -/

/-- Every value's fuel bound is at least 2. -/
theorem jsizeV_pos (v : JValue) : 2 ≤ jsizeV v := by
  cases v <;> simp [jsizeV] <;> omega

set_option maxHeartbeats 1000000 in
/-- Every escaped character is at least one character long. -/
theorem escChar_length_pos (c : Char) : 0 < (escChar c).length := by
  simp only [escChar]
  split_ifs <;>
    simp only [hex4, List.length_cons, List.length_nil, List.length_append] <;> omega

/-- Escaping never shortens a character list. -/
theorem le_escList_length (cs : List Char) : cs.length ≤ (escList cs).length := by
  induction cs with
  | nil => simp [escList]
  | cons c tl ih =>
    rw [escList, List.length_append, List.length_cons]
    have := escChar_length_pos c
    omega

/-- A dumped value starts with a non-whitespace character that closes no
bracket (so the reader's peeking never mistakes it for an array or object
end). -/
theorem dumpV_head (ind : Nat) (v : JValue) :
    ∃ c l, dumpV ind v = c :: l ∧ isWs c = false ∧ c ≠ ']' ∧ c ≠ rbraceChar := by
  have hats : ∀ c : Char, c.toNat ≠ 32 → c.toNat ≠ 9 → c.toNat ≠ 10 → c.toNat ≠ 13 →
      c.toNat ≠ 93 → c.toNat ≠ 125 → isWs c = false ∧ c ≠ ']' ∧ c ≠ rbraceChar := by
    intro c h32 h9 h10 h13 h93 h125
    refine ⟨?_, fun he => h93 (by rw [he]; rfl), fun he => h125 (by rw [he]; rfl)⟩
    simp only [isWs, Bool.or_eq_false_iff, beq_eq_false_iff_ne]
    exact ⟨⟨⟨fun he => h32 (by rw [he]; rfl), fun he => h9 (by rw [he]; rfl)⟩,
      fun he => h10 (by rw [he]; rfl)⟩, fun he => h13 (by rw [he]; rfl)⟩
  cases v with
  | null => exact ⟨'n', _, rfl, hats 'n' (by decide) (by decide) (by decide) (by decide)
      (by decide) (by decide)⟩
  | bool b =>
    cases b with
    | true => exact ⟨'t', _, rfl, hats 't' (by decide) (by decide) (by decide) (by decide)
        (by decide) (by decide)⟩
    | false => exact ⟨'f', _, rfl, hats 'f' (by decide) (by decide) (by decide) (by decide)
        (by decide) (by decide)⟩
  | num i =>
    cases i with
    | ofNat n =>
      obtain ⟨c, l, hcl⟩ := List.exists_cons_of_ne_nil (natPrint_spec n).2.2
      have hd : isDigitCh c = true :=
        (natPrint_spec n).1 c (hcl ▸ List.mem_cons_self c l)
      obtain ⟨hw, _, _, _, _, _, _, _, hbr, hrb, _⟩ := digit_head_props c hd
      exact ⟨c, l, by rw [dumpV, intPrint, hcl], hw, hbr, hrb⟩
    | negSucc m => exact ⟨'-', _, rfl, hats '-' (by decide) (by decide) (by decide)
        (by decide) (by decide) (by decide)⟩
  | str s => exact ⟨quoteChar, _, rfl, hats quoteChar (by decide) (by decide) (by decide)
      (by decide) (by decide) (by decide)⟩
  | arr xs =>
    cases xs with
    | nil => exact ⟨'[', _, rfl, hats '[' (by decide) (by decide) (by decide) (by decide)
        (by decide) (by decide)⟩
    | cons v tl => exact ⟨'[', _, rfl, hats '[' (by decide) (by decide) (by decide)
        (by decide) (by decide) (by decide)⟩
  | obj fs =>
    cases fs with
    | nil => exact ⟨lbraceChar, _, rfl, hats lbraceChar (by decide) (by decide) (by decide)
        (by decide) (by decide) (by decide)⟩
    | cons k v tl => exact ⟨lbraceChar, _, rfl, hats lbraceChar (by decide) (by decide)
        (by decide) (by decide) (by decide) (by decide)⟩

mutual
/-- The fuel bound of a value is dominated by its dump's length. -/
theorem jsizeV_le_dumpV (ind : Nat) (v : JValue) :
    jsizeV v ≤ 2 * (dumpV ind v).length + 1 := by
  cases v with
  | null => simp [jsizeV, dumpV]
  | bool b => cases b <;> simp [jsizeV, dumpV]
  | num i =>
    have hlen : 0 < (dumpV ind (.num i)).length := by
      rw [dumpV]
      cases i with
      | ofNat n =>
        rw [intPrint, List.length_pos]
        exact (natPrint_spec n).2.2
      | negSucc m => simp [intPrint]
    simp only [jsizeV]
    omega
  | str s =>
    have := le_escList_length s.data
    simp only [jsizeV, dumpV, dumpStr, List.length_cons, List.length_append,
      List.length_singleton, String.length]
    omega
  | arr xs =>
    cases xs with
    | nil => simp [jsizeV, jsizeA, dumpV]
    | cons v tl =>
      have h1 := jsizeV_le_dumpV (ind + 1) v
      have h2 := jsizeA_le_dumpArrRest (ind + 1) tl
      simp only [jsizeV, jsizeA, dumpV, List.length_cons, List.length_append,
        indentChars, List.length_replicate, List.length_singleton]
      omega
  | obj fs =>
    cases fs with
    | nil => simp [jsizeV, jsizeO, dumpV]
    | cons k v tl =>
      have h1 := jsizeV_le_dumpV (ind + 1) v
      have h2 := jsizeO_le_dumpObjRest (ind + 1) tl
      have h3 := le_escList_length k.data
      simp only [jsizeV, jsizeO, dumpV, dumpStr, List.length_cons, List.length_append,
        indentChars, List.length_replicate, List.length_singleton, String.length]
      omega
/-- The fuel bound of trailing array items is dominated by their dump's
length. -/
theorem jsizeA_le_dumpArrRest (ind : Nat) (tl : JArr) :
    jsizeA tl ≤ 2 * (dumpArrRest ind tl).length := by
  cases tl with
  | nil => simp [jsizeA, dumpArrRest]
  | cons v tl2 =>
    have h1 := jsizeV_le_dumpV ind v
    have h2 := jsizeA_le_dumpArrRest ind tl2
    simp only [jsizeA, dumpArrRest, List.length_cons, List.length_append,
      indentChars, List.length_replicate]
    omega
/-- The fuel bound of trailing object fields is dominated by their dump's
length. -/
theorem jsizeO_le_dumpObjRest (ind : Nat) (fs : JObj) :
    jsizeO fs ≤ 2 * (dumpObjRest ind fs).length := by
  cases fs with
  | nil => simp [jsizeO, dumpObjRest]
  | cons k v tl2 =>
    have h1 := jsizeV_le_dumpV ind v
    have h2 := jsizeO_le_dumpObjRest ind tl2
    have h3 := le_escList_length k.data
    simp only [jsizeO, dumpObjRest, dumpStr, List.length_cons, List.length_append,
      indentChars, List.length_replicate, List.length_singleton, String.length]
    omega
end

/-- A whitespace run followed by a non-digit keeps the suffix digit-free at
its head. -/
theorem headNotDigit_ws_append (post : List Char) (c : Char) (rest : List Char)
    (hpost : ∀ x ∈ post, isWs x = true) (hc : isDigitCh c = false) :
    headNotDigit (post ++ c :: rest) := by
  cases post with
  | nil => exact hc
  | cons p tl =>
    have := not_digit_of_ws p (hpost p (List.mem_cons_self p tl))
    exact this

/-! ## The reader undoes the dump -/

mutual
/-- Reading a dumped value (under any leading whitespace run, with any
digit-free suffix) returns the value and the untouched suffix. -/
theorem parse_dumpV (fuel : Nat) (v : JValue) (ind : Nat) (pre rest : List Char)
    (hfuel : jsizeV v ≤ fuel) (hpre : ∀ c ∈ pre, isWs c = true)
    (hrest : headNotDigit rest) :
    parseValue fuel (pre ++ (dumpV ind v ++ rest)) = some (v, rest) := by
  cases fuel with
  | zero => exact absurd hfuel (by have := jsizeV_pos v; omega)
  | succ f =>
    rw [parseValue, skipWs_append_ws pre _ hpre]
    cases v with
    | null =>
      simp only [jsizeV] at hfuel
      rw [show dumpV ind .null = ['n', 'u', 'l', 'l'] from rfl]
      rw [List.cons_append, skipWs_cons_of_not _ _ (by decide)]
      cases f with
      | zero => omega
      | succ g =>
        rw [parseValueCore, if_neg (by decide : ¬(('n' : Char) = lbraceChar)),
            if_neg (by decide : ¬(('n' : Char) = '[')),
            if_neg (by decide : ¬(('n' : Char) = quoteChar)), if_pos rfl]
        simp only [List.cons_append, List.nil_append]
        rw [nullTail]
    | bool b =>
      simp only [jsizeV] at hfuel
      cases f with
      | zero => omega
      | succ g =>
        cases b with
        | true =>
          rw [show dumpV ind (.bool true) = ['t', 'r', 'u', 'e'] from rfl]
          rw [List.cons_append, skipWs_cons_of_not _ _ (by decide)]
          rw [parseValueCore, if_neg (by decide : ¬(('t' : Char) = lbraceChar)),
              if_neg (by decide : ¬(('t' : Char) = '[')),
              if_neg (by decide : ¬(('t' : Char) = quoteChar)),
              if_neg (by decide : ¬(('t' : Char) = 'n')), if_pos rfl]
          simp only [List.cons_append, List.nil_append]
          rw [trueTail]
        | false =>
          rw [show dumpV ind (.bool false) = ['f', 'a', 'l', 's', 'e'] from rfl]
          rw [List.cons_append, skipWs_cons_of_not _ _ (by decide)]
          rw [parseValueCore, if_neg (by decide : ¬(('f' : Char) = lbraceChar)),
              if_neg (by decide : ¬(('f' : Char) = '[')),
              if_neg (by decide : ¬(('f' : Char) = quoteChar)),
              if_neg (by decide : ¬(('f' : Char) = 'n')),
              if_neg (by decide : ¬(('f' : Char) = 't')), if_pos rfl]
          simp only [List.cons_append, List.nil_append]
          rw [falseTail]
    | num i =>
      simp only [jsizeV] at hfuel
      cases i with
      | ofNat n =>
        obtain ⟨hdigs, hval, hne⟩ := natPrint_spec n
        obtain ⟨c, ds, hcds⟩ := List.exists_cons_of_ne_nil hne
        have hdc : isDigitCh c = true := hdigs c (hcds ▸ List.mem_cons_self c ds)
        obtain ⟨hw, hlb, hlsq, hq, hn2, ht2, hf2, hm, _, _, _⟩ := digit_head_props c hdc
        rw [show dumpV ind (.num (.ofNat n)) = natPrint n from rfl, hcds,
            List.cons_append, skipWs_cons_of_not _ _ hw]
        cases f with
        | zero => omega
        | succ g =>
          rw [parseValueCore, if_neg hlb, if_neg hlsq, if_neg hq, if_neg hn2,
              if_neg ht2, if_neg hf2, if_neg hm, if_pos hdc]
          rw [parseNatAcc_spec ds rest (digitVal c)
              (fun x hx => hdigs x (hcds ▸ List.mem_cons_of_mem c hx)) hrest]
          have hv : digitsVal ds (digitVal c) = n := by
            have h0 : digitsVal (c :: ds) 0 = n := hcds ▸ hval
            simpa [digitsVal, List.foldl_cons] using h0
          simp only [numTail, hv]
          rfl
      | negSucc m =>
        obtain ⟨hdigs, hval, hne⟩ := natPrint_spec (m + 1)
        obtain ⟨c, ds, hcds⟩ := List.exists_cons_of_ne_nil hne
        have hdc : isDigitCh c = true := hdigs c (hcds ▸ List.mem_cons_self c ds)
        rw [show dumpV ind (.num (.negSucc m)) = '-' :: natPrint (m + 1) from rfl,
            List.cons_append, skipWs_cons_of_not _ _ (by decide)]
        cases f with
        | zero => omega
        | succ g =>
          rw [parseValueCore, if_neg (by decide : ¬(('-' : Char) = lbraceChar)),
              if_neg (by decide : ¬(('-' : Char) = '[')),
              if_neg (by decide : ¬(('-' : Char) = quoteChar)),
              if_neg (by decide : ¬(('-' : Char) = 'n')),
              if_neg (by decide : ¬(('-' : Char) = 't')),
              if_neg (by decide : ¬(('-' : Char) = 'f')), if_pos rfl]
          rw [hcds, List.cons_append, negNumTail, if_pos hdc]
          rw [parseNatAcc_spec ds rest (digitVal c)
              (fun x hx => hdigs x (hcds ▸ List.mem_cons_of_mem c hx)) hrest]
          have hv : digitsVal ds (digitVal c) = m + 1 := by
            have h0 : digitsVal (c :: ds) 0 = m + 1 := hcds ▸ hval
            simpa [digitsVal, List.foldl_cons] using h0
          simp only [negNumTail2, hv]
          have hcast : (-((m + 1 : Nat) : Int)) = Int.negSucc m := by
            rw [Int.negSucc_eq]
            push_cast
            ring
          rw [hcast]
    | str s =>
      simp only [jsizeV] at hfuel
      have hsl : s.length = s.data.length := rfl
      rw [show dumpV ind (.str s) = dumpStr s from rfl, dumpStr,
          List.cons_append, skipWs_cons_of_not _ _ (by decide),
          List.append_assoc, List.singleton_append]
      cases f with
      | zero => omega
      | succ g =>
        rw [parseValueCore, if_neg (by decide : ¬(quoteChar = lbraceChar)),
            if_neg (by decide : ¬(quoteChar = '[')), if_pos rfl]
        rw [parseStringBody_escList s.data g [] rest (by omega)]
        cases s with
        | mk sd => rw [strTail]; rfl
    | arr xs =>
      cases xs with
      | nil =>
        simp only [jsizeV, jsizeA] at hfuel
        rw [show dumpV ind (.arr .nil) = ['[', ']'] from rfl]
        rw [List.cons_append, skipWs_cons_of_not _ _ (by decide)]
        cases f with
        | zero => omega
        | succ g =>
          rw [parseValueCore, if_neg (by decide : ¬(('[' : Char) = lbraceChar)),
              if_pos rfl]
          simp only [List.cons_append, List.nil_append]
          rw [skipWs_cons_of_not _ _ (by decide)]
          cases g with
          | zero => omega
          | succ h =>
            rw [parseArrStart, if_pos rfl]
      | cons v tl =>
        have hsz := jsizeV_pos v
        simp only [jsizeV, jsizeA] at hfuel
        rw [show dumpV ind (.arr (.cons v tl)) =
            '[' :: '\n' :: (indentChars (ind + 1) ++ dumpV (ind + 1) v ++
              dumpArrRest (ind + 1) tl ++ '\n' :: (indentChars ind ++ [']'])) from rfl]
        rw [List.cons_append, skipWs_cons_of_not _ _ (by decide)]
        cases f with
        | zero => omega
        | succ g =>
          rw [parseValueCore, if_neg (by decide : ¬(('[' : Char) = lbraceChar)),
              if_pos rfl, List.cons_append, skipWs_cons_of_ws _ _ (by decide)]
          obtain ⟨hc, hl, hchl, hcw, hcne, _⟩ := dumpV_head (ind + 1) v
          rw [show (indentChars (ind + 1) ++ dumpV (ind + 1) v ++
                dumpArrRest (ind + 1) tl ++ '\n' :: (indentChars ind ++ [']'])) ++ rest =
              indentChars (ind + 1) ++ (dumpV (ind + 1) v ++
                (dumpArrRest (ind + 1) tl ++
                  (('\n' :: indentChars ind) ++ (']' :: rest)))) from by
            simp [List.append_assoc]]
          rw [skipWs_append_ws _ _ (isWs_indentChars _), hchl, List.cons_append,
              skipWs_cons_of_not _ _ hcw]
          cases g with
          | zero => omega
          | succ h =>
            rw [parseArrStart, if_neg hcne, ← List.cons_append, ← hchl]
            have hrec := parse_dumpArr h v tl (ind + 1) [] ('\n' :: indentChars ind) rest
              (by simp only [jsizeA]; omega)
              (by simp)
              (by
                intro x hx
                rcases List.mem_cons.mp hx with h1 | h1
                · rw [h1]; decide
                · exact isWs_indentChars ind x h1)
              hrest
            rw [List.nil_append] at hrec
            rw [hrec, arrWrap]
    | obj fs =>
      cases fs with
      | nil =>
        simp only [jsizeV, jsizeO] at hfuel
        rw [show dumpV ind (.obj .nil) = [lbraceChar, rbraceChar] from rfl]
        rw [List.cons_append, skipWs_cons_of_not _ _ (by decide)]
        cases f with
        | zero => omega
        | succ g =>
          rw [parseValueCore, if_pos rfl]
          simp only [List.cons_append, List.nil_append]
          rw [skipWs_cons_of_not _ _ (by decide)]
          cases g with
          | zero => omega
          | succ h =>
            rw [parseObjStart, if_pos rfl]
      | cons k v tl =>
        have hsz := jsizeV_pos v
        simp only [jsizeV, jsizeO] at hfuel
        rw [show dumpV ind (.obj (.cons k v tl)) =
            lbraceChar :: '\n' :: (indentChars (ind + 1) ++ dumpStr k ++
              ':' :: ' ' :: (dumpV (ind + 1) v ++ dumpObjRest (ind + 1) tl ++
                '\n' :: (indentChars ind ++ [rbraceChar]))) from rfl]
        rw [List.cons_append, skipWs_cons_of_not _ _ (by decide)]
        cases f with
        | zero => omega
        | succ g =>
          rw [parseValueCore, if_pos rfl, List.cons_append,
              skipWs_cons_of_ws _ _ (by decide)]
          rw [show (indentChars (ind + 1) ++ dumpStr k ++
                ':' :: ' ' :: (dumpV (ind + 1) v ++ dumpObjRest (ind + 1) tl ++
                  '\n' :: (indentChars ind ++ [rbraceChar]))) ++ rest =
              indentChars (ind + 1) ++ (dumpStr k ++
                (':' :: ' ' :: (dumpV (ind + 1) v ++
                  (dumpObjRest (ind + 1) tl ++
                    (('\n' :: indentChars ind) ++ (rbraceChar :: rest)))))) from by
            simp [List.append_assoc]]
          rw [dumpStr, List.cons_append, skipWs_append_ws _ _ (isWs_indentChars _),
              skipWs_cons_of_not _ _ (by decide)]
          cases g with
          | zero => omega
          | succ h =>
            rw [parseObjStart, if_neg (by decide : ¬(quoteChar = rbraceChar)),
                ← List.cons_append, ← dumpStr]
            have hrec := parse_dumpObj h k v tl (ind + 1) [] ('\n' :: indentChars ind) rest
              (by simp only [jsizeO]; omega)
              (by simp)
              (by
                intro x hx
                rcases List.mem_cons.mp hx with h1 | h1
                · rw [h1]; decide
                · exact isWs_indentChars ind x h1)
              hrest
            rw [List.nil_append] at hrec
            rw [hrec, objWrap]

/-- Reading the dumped items of a nonempty array (first item, trailing
items, closing bracket) returns them all. -/
theorem parse_dumpArr (fuel : Nat) (v : JValue) (tl : JArr) (ind : Nat)
    (pre post rest : List Char)
    (hfuel : jsizeA (JArr.cons v tl) ≤ fuel)
    (hpre : ∀ c ∈ pre, isWs c = true) (hpost : ∀ c ∈ post, isWs c = true)
    (hrest : headNotDigit rest) :
    parseArrItems fuel
        (pre ++ (dumpV ind v ++ (dumpArrRest ind tl ++ (post ++ (']' :: rest))))) =
      some (JArr.cons v tl, rest) := by
  have hsz := jsizeV_pos v
  simp only [jsizeA] at hfuel
  cases fuel with
  | zero => omega
  | succ i =>
    have hrest2 : headNotDigit (dumpArrRest ind tl ++ (post ++ (']' :: rest))) := by
      cases tl with
      | nil =>
        rw [show dumpArrRest ind .nil = [] from rfl, List.nil_append]
        exact headNotDigit_ws_append post ']' rest hpost (by decide)
      | cons v2 tl2 =>
        rw [show dumpArrRest ind (.cons v2 tl2) =
            ',' :: '\n' :: (indentChars ind ++ dumpV ind v2 ++ dumpArrRest ind tl2)
            from rfl, List.cons_append]
        exact (by decide : isDigitCh ',' = false)
    rw [parseArrItems,
        parse_dumpV i v ind pre (dumpArrRest ind tl ++ (post ++ (']' :: rest)))
          (by omega) hpre hrest2]
    cases i with
    | zero => omega
    | succ j =>
      rw [arrStep]
      cases tl with
      | nil =>
        rw [show dumpArrRest ind .nil = [] from rfl, List.nil_append,
            skipWs_append_ws _ _ hpost, skipWs_cons_of_not _ _ (by decide)]
        cases j with
        | zero => omega
        | succ m =>
          rw [arrSep, if_neg (by decide : ¬((']' : Char) = ',')), if_pos rfl]
      | cons v2 tl2 =>
        rw [show dumpArrRest ind (.cons v2 tl2) =
            ',' :: '\n' :: (indentChars ind ++ dumpV ind v2 ++ dumpArrRest ind tl2)
            from rfl, List.cons_append, skipWs_cons_of_not _ _ (by decide)]
        cases j with
        | zero => simp only [jsizeA] at hfuel; omega
        | succ m =>
          rw [arrSep, if_pos rfl]
          rw [show ('\n' :: (indentChars ind ++ dumpV ind v2 ++ dumpArrRest ind tl2)) ++
                (post ++ (']' :: rest)) =
              ('\n' :: indentChars ind) ++ (dumpV ind v2 ++
                (dumpArrRest ind tl2 ++ (post ++ (']' :: rest)))) from by
            simp [List.append_assoc]]
          rw [parse_dumpArr m v2 tl2 ind ('\n' :: indentChars ind) post rest
              (by omega)
              (by
                intro x hx
                rcases List.mem_cons.mp hx with h1 | h1
                · rw [h1]; decide
                · exact isWs_indentChars ind x h1)
              hpost hrest]
          rw [consWrapA]

/-- Reading the dumped fields of a nonempty object (first key and value,
trailing fields, closing brace) returns them all. -/
theorem parse_dumpObj (fuel : Nat) (k : String) (v : JValue) (tl : JObj) (ind : Nat)
    (pre post rest : List Char)
    (hfuel : jsizeO (JObj.cons k v tl) ≤ fuel)
    (hpre : ∀ c ∈ pre, isWs c = true) (hpost : ∀ c ∈ post, isWs c = true)
    (hrest : headNotDigit rest) :
    parseObjItems fuel
        (pre ++ (dumpStr k ++ (':' :: ' ' :: (dumpV ind v ++
          (dumpObjRest ind tl ++ (post ++ (rbraceChar :: rest))))))) =
      some (JObj.cons k v tl, rest) := by
  have hsz := jsizeV_pos v
  have hsl : k.length = k.data.length := rfl
  simp only [jsizeO] at hfuel
  cases fuel with
  | zero => omega
  | succ i =>
    rw [parseObjItems, skipWs_append_ws pre _ hpre, dumpStr, List.cons_append,
        skipWs_cons_of_not _ _ (by decide)]
    cases i with
    | zero => omega
    | succ g =>
      rw [objKey, if_pos rfl, List.append_assoc, List.singleton_append]
      rw [parseStringBody_escList k.data g [] _ (by omega)]
      cases g with
      | zero => omega
      | succ h =>
        rw [objColon]
        rw [show String.mk ([].reverse ++ k.data) = k from by cases k with
          | mk kd => rfl]
        rw [skipWs_cons_of_not _ _ (by decide)]
        cases h with
        | zero => omega
        | succ j =>
          rw [objColon2, if_pos rfl]
          have hrest2 : headNotDigit (dumpObjRest ind tl ++ (post ++ (rbraceChar :: rest))) := by
            cases tl with
            | nil =>
              rw [show dumpObjRest ind .nil = [] from rfl, List.nil_append]
              exact headNotDigit_ws_append post rbraceChar rest hpost (by decide)
            | cons k2 v2 tl2 =>
              rw [show dumpObjRest ind (.cons k2 v2 tl2) =
                  ',' :: '\n' :: (indentChars ind ++ dumpStr k2 ++
                    ':' :: ' ' :: (dumpV ind v2 ++ dumpObjRest ind tl2)) from rfl,
                  List.cons_append]
              exact (by decide : isDigitCh ',' = false)
          rw [show (' ' : Char) :: (dumpV ind v ++
                (dumpObjRest ind tl ++ (post ++ (rbraceChar :: rest)))) =
              [' '] ++ (dumpV ind v ++
                (dumpObjRest ind tl ++ (post ++ (rbraceChar :: rest)))) from rfl]
          rw [parse_dumpV j v ind [' ']
              (dumpObjRest ind tl ++ (post ++ (rbraceChar :: rest)))
              (by omega) (by decide) hrest2]
          cases j with
          | zero => omega
          | succ m =>
            rw [objVal]
            cases tl with
            | nil =>
              rw [show dumpObjRest ind .nil = [] from rfl, List.nil_append,
                  skipWs_append_ws _ _ hpost, skipWs_cons_of_not _ _ (by decide)]
              cases m with
              | zero => omega
              | succ m2 =>
                rw [objSep, if_neg (by decide : ¬(rbraceChar = ',')), if_pos rfl]
            | cons k2 v2 tl2 =>
              rw [show dumpObjRest ind (.cons k2 v2 tl2) =
                  ',' :: '\n' :: (indentChars ind ++ dumpStr k2 ++
                    ':' :: ' ' :: (dumpV ind v2 ++ dumpObjRest ind tl2)) from rfl,
                  List.cons_append, skipWs_cons_of_not _ _ (by decide)]
              cases m with
              | zero => simp only [jsizeO] at hfuel; omega
              | succ m2 =>
                rw [objSep, if_pos rfl]
                rw [show ('\n' :: (indentChars ind ++ dumpStr k2 ++
                      ':' :: ' ' :: (dumpV ind v2 ++ dumpObjRest ind tl2))) ++
                      (post ++ (rbraceChar :: rest)) =
                    ('\n' :: indentChars ind) ++ (dumpStr k2 ++
                      (':' :: ' ' :: (dumpV ind v2 ++
                        (dumpObjRest ind tl2 ++ (post ++ (rbraceChar :: rest)))))) from by
                  simp [List.append_assoc]]
                rw [parse_dumpObj m2 k2 v2 tl2 ind ('\n' :: indentChars ind) post rest
                    (by omega)
                    (by
                      intro x hx
                      rcases List.mem_cons.mp hx with h1 | h1
                      · rw [h1]; decide
                      · exact isWs_indentChars ind x h1)
                    hpost hrest]
                rw [consWrapO]
end

/-- The reader inverts the dump on whole documents: parsing a dumped value
recovers it exactly. -/
theorem jsonParse_jsonDump (v : JValue) : jsonParse (jsonDump v) = some v := by
  rw [jsonParse]
  rw [show (jsonDump v).data = dumpV 0 v from rfl,
      show (jsonDump v).length = (dumpV 0 v).length from rfl]
  have h := parse_dumpV (2 * (dumpV 0 v).length + 2) v 0 [] []
    (by have := jsizeV_le_dumpV 0 v; omega) (by simp) trivial
  rw [List.nil_append, List.append_nil] at h
  rw [h, jsonParseFinish]
  simp [skipWs]

/-! ## The persister: fixed path, overwrite, round-trip -/

/-- C5: the persister writes the whole bundle to the fixed output path as
the indent-2 JSON dump, regardless of what was previously stored there
(overwrite), and the written document parses back to exactly the serialised
structure. -/
theorem c5_persist_roundtrip (fs : FileSystem) (bundle : List (String × JValue)) :
    persistBundle fs bundle outputPath = some (jsonDumpBundle bundle) ∧
    jsonParse (jsonDumpBundle bundle) = some (.obj (JObj.ofList bundle)) := by
  constructor
  · simp [persistBundle, writeFile]
  · rw [jsonDumpBundle]
    exact jsonParse_jsonDump _
